import Mathlib

/-!
Verification of the image-acquisition core of `src/get_image.py`
(arknights_poster_scraper).

The development shallowly embeds the Python source:

* `sanitize_title`, `filename_from_title` — filename deriver (lines 35-54),
  including models of `urllib.parse.urlparse(url).path` and of
  `pathlib.PurePath.suffix` / `.stem`;
* `choose_filename` — the cache-aware resolver loop (lines 92-113),
  written with explicit fuel whose sufficiency is proved;
* `download_image` — the retrying fetcher (lines 72-89), with the
  filesystem effects on the destination and the `.part` sibling made
  explicit as an operation trace;
* `save_json` (lines 31-32) as its trace of file operations;
* `processUrl` / `runPosters` / `main_model` — the reconciler loop of
  `main` (lines 116-191) over an abstract network oracle.

Strings are Lean `String`s; Python dicts become association lists with
dict-style update (replace in place or append), Python sets become lists
with membership semantics.  Whitespace (`\s`) is modelled as ASCII
whitespace, which covers every input appearing in the theorems below.
-/

/-! ### Character classes and list helpers (regexes of `sanitize_title`) -/

/-- Characters replaced by `re.sub(r'[\\/:*?"<>|]+', "_", …)`. -/
def illegalChar (c : Char) : Bool :=
  c = '\\' || c = '/' || c = ':' || c = '*' || c = '?' ||
  c = '"' || c = '<' || c = '>' || c = '|'

/-- Whitespace as matched by `\s` / stripped by `str.strip()` (ASCII model). -/
def isWs (c : Char) : Bool := c.isWhitespace

/-- Strip characters satisfying `p` from both ends (Python `str.strip`). -/
def stripEnds (p : Char → Bool) (l : List Char) : List Char :=
  ((l.dropWhile p).reverse.dropWhile p).reverse

/-- Worker for `collapseRuns`: `inRun` records whether the previous
character belonged to a run of `p`-characters (already replaced). -/
def collapseRunsGo (p : Char → Bool) : Bool → List Char → List Char
  | _, [] => []
  | inRun, c :: rest =>
    if p c then
      if inRun then collapseRunsGo p true rest
      else '_' :: collapseRunsGo p true rest
    else c :: collapseRunsGo p false rest

/-- Replace every maximal run of characters satisfying `p` by a single `'_'`
(the effect of `re.sub(pattern+, "_", s)`). -/
def collapseRuns (p : Char → Bool) (l : List Char) : List Char :=
  collapseRunsGo p false l

/-- The cleaning pipeline of `sanitize_title` before its final
`or "image"` fallback: collapse whitespace runs of the stripped title to
`_`, collapse illegal-character runs to `_`, collapse `_` runs, strip `_`
from the ends. -/
def cleaned_title (title : String) : List Char :=
  let l := collapseRuns isWs (stripEnds isWs title.data)
  let l := collapseRuns illegalChar l
  let l := collapseRuns (fun c => c = '_') l
  stripEnds (fun c => c = '_') l

/-- `sanitize_title` (get_image.py lines 35-40): the cleaning pipeline,
then `cleaned.strip("_") or "image"` — the literal `"image"` whenever the
cleaned string is empty. -/
def sanitize_title (title : String) : String :=
  let l := cleaned_title title
  if l = [] then "image" else ⟨l⟩

/-! ### `urlparse(url).path` and `PurePath.suffix` / `.stem` -/

/-- Characters legal inside a URL scheme (`urllib.parse.scheme_chars`). -/
def schemeChar (c : Char) : Bool :=
  c.isAlphanum || c = '+' || c = '-' || c = '.'

/-- Drop a leading `scheme:` when present, as `urlsplit` does: the part
before the first `':'` must be nonempty, start with a letter and consist of
scheme characters. -/
def stripScheme (l : List Char) : List Char :=
  let pre := l.takeWhile (fun c => c ≠ ':')
  if pre.length < l.length ∧ pre ≠ [] ∧ pre.all schemeChar ∧
      (pre.headD 'a').isAlpha then
    l.drop (pre.length + 1)
  else l

/-- Drop a leading `//netloc`, as `urlsplit` does: after `//`, the netloc
extends to the first `'/'`, `'?'` or `'#'` (which is kept). -/
def stripNetloc : List Char → List Char
  | '/' :: '/' :: rest =>
    rest.dropWhile (fun c => c ≠ '/' && c ≠ '?' && c ≠ '#')
  | l => l

/-- Drop the fragment: everything from the first `'#'`. -/
def stripFragment (l : List Char) : List Char :=
  l.takeWhile (fun c => c ≠ '#')

/-- Drop the query: everything from the first `'?'`. -/
def stripQuery (l : List Char) : List Char :=
  l.takeWhile (fun c => c ≠ '?')

/-- Drop `;params` from the last path segment (`urlparse._splitparams`):
the `';'` is searched only at or after the last `'/'`. -/
def stripParams (l : List Char) : List Char :=
  if l.contains '/' then
    let afterSlash := (l.reverse.takeWhile (fun c => c ≠ '/')).reverse
    let before := l.take (l.length - afterSlash.length)
    before ++ afterSlash.takeWhile (fun c => c ≠ ';')
  else
    l.takeWhile (fun c => c ≠ ';')

/-- The `path` component of `urllib.parse.urlparse(url)`.  `urlsplit`
removes (in order) the scheme, the netloc, the fragment and the query;
`urlparse` additionally splits `;params` off the last segment. -/
def urlparse_path (url : String) : String :=
  ⟨stripParams (stripQuery (stripFragment (stripNetloc (stripScheme url.data))))⟩

/-- `PurePath(p).name`: the last path component, after dropping empty and
`'.'` components; `""` when there is none. -/
def pathName (p : String) : String :=
  let parts := (p.data.splitOn '/').filter (fun seg => seg ≠ [] && seg ≠ ['.'])
  ⟨parts.getLastD []⟩

/-- `PurePath(p).suffix`: `name[i:]` where `i` is the index of the last
`'.'` of the name, provided `0 < i < len(name) - 1`; `""` otherwise. -/
def pathSuffix (p : String) : String :=
  let name := (pathName p).data
  let afterRev := name.reverse.takeWhile (fun c => c ≠ '.')
  if afterRev.length < name.length ∧ afterRev ≠ [] ∧
      name.length - afterRev.length - 1 > 0 then
    ⟨'.' :: afterRev.reverse⟩
  else ""

/-- `PurePath(p).stem`: the name with the suffix removed (same guard as
`pathSuffix`). -/
def pathStem (p : String) : String :=
  let name := (pathName p).data
  let afterRev := name.reverse.takeWhile (fun c => c ≠ '.')
  if afterRev.length < name.length ∧ afterRev ≠ [] ∧
      name.length - afterRev.length - 1 > 0 then
    ⟨name.take (name.length - afterRev.length - 1)⟩
  else ⟨name⟩

/-- `filename_from_title` (get_image.py lines 43-54).  Returns
`(base_name, extension)`.  `sanitize_title title or sanitize_title stem`
is Python's truthiness `or`: the right operand is used only when the left
is the empty string. -/
def filename_from_title (title url : String) (index total : Nat) :
    String × String :=
  let path := urlparse_path url
  let ext0 := pathSuffix path
  let ext := if ext0 = "" then ".jpg" else ext0
  let st := sanitize_title title
  let base0 := if st = "" then sanitize_title (pathStem path) else st
  let base := if total > 1 then base0 ++ "_" ++ Nat.repr (index + 1) else base0
  (base, ext)

/-! ### Decimal representation: `Nat.repr` is injective

`f"{base}_{counter}{ext}"` renders the counter in decimal.  To reason about
the candidate names of `choose_filename` we prove that Lean's `Nat.repr`
(the embedding of that decimal rendering) is injective, via a recursive
specification `decDigits` of `Nat.toDigitsCore` and a decoding function. -/

/-- The decimal digit string of `n`, most significant first. -/
def decDigits (n : Nat) : List Char :=
  if _h : n < 10 then [Nat.digitChar n]
  else decDigits (n / 10) ++ [Nat.digitChar (n % 10)]
termination_by n
decreasing_by
  exact Nat.div_lt_self (by omega) (by omega)

theorem toDigitsCore_eq_decDigits :
    ∀ (fuel n : Nat) (acc : List Char), n < fuel →
      Nat.toDigitsCore 10 fuel n acc = decDigits n ++ acc := by
  intro fuel
  induction fuel with
  | zero => intro n acc h; omega
  | succ fuel ih =>
    intro n acc h
    by_cases h10 : n < 10
    · have hdiv : n / 10 = 0 := Nat.div_eq_of_lt h10
      have hmod : n % 10 = n := Nat.mod_eq_of_lt h10
      simp [Nat.toDigitsCore, hdiv, decDigits, h10, hmod]
    · have hdiv : n / 10 ≠ 0 := by
        intro hc
        exact h10 (by omega : n < 10)
      have hlt : n / 10 < fuel := by
        have : n / 10 < n := Nat.div_lt_self (by omega) (by omega)
        omega
      simp only [Nat.toDigitsCore, hdiv, if_false]
      rw [ih (n / 10) _ hlt]
      have hrw : decDigits n = decDigits (n / 10) ++ [Nat.digitChar (n % 10)] := by
        rw [decDigits]; simp [h10]
      rw [hrw, List.append_assoc]
      rfl

/-- Decode a digit string back to the number (`'0'` has code 48). -/
def decVal (l : List Char) : Nat :=
  l.foldl (fun a c => a * 10 + (c.toNat - 48)) 0

theorem decVal_go (l : List Char) :
    ∀ a : Nat, l.foldl (fun a c => a * 10 + (c.toNat - 48)) a =
      a * 10 ^ l.length + decVal l := by
  induction l with
  | nil => intro a; simp [decVal]
  | cons c t ih =>
    intro a
    simp only [List.foldl_cons, decVal, List.length_cons]
    rw [ih, ih (0 * 10 + (c.toNat - 48))]
    ring

theorem digitChar_toNat : ∀ d : Nat, d < 10 → (Nat.digitChar d).toNat = d + 48 := by
  decide

theorem decVal_decDigits (n : Nat) : decVal (decDigits n) = n := by
  induction n using Nat.strong_induction_on with
  | _ n ih =>
    by_cases h : n < 10
    · rw [decDigits]
      simp only [h, dite_true, decVal, List.foldl_cons, List.foldl_nil]
      rw [digitChar_toNat n h]
      omega
    · rw [decDigits]
      simp only [h, dite_false, decVal, List.foldl_append]
      have hmod : n % 10 < 10 := Nat.mod_lt _ (by omega)
      have hdivlt : n / 10 < n := Nat.div_lt_self (by omega) (by omega)
      have := ih (n / 10) hdivlt
      simp only [decVal] at this
      simp only [List.foldl_cons, List.foldl_nil]
      rw [this, digitChar_toNat _ hmod]
      omega

theorem decDigits_injective : Function.Injective decDigits := by
  intro m n h
  have := decVal_decDigits m
  rw [h, decVal_decDigits] at this
  omega

theorem repr_eq_decDigits (n : Nat) : Nat.repr n = List.asString (decDigits n) := by
  show List.asString (Nat.toDigitsCore 10 (n + 1) n []) = _
  rw [toDigitsCore_eq_decDigits (n + 1) n [] (Nat.lt_succ_self n)]
  simp

theorem nat_repr_injective : Function.Injective Nat.repr := by
  intro m n h
  rw [repr_eq_decDigits, repr_eq_decDigits] at h
  have hdata : decDigits m = decDigits n := congrArg String.data h
  exact decDigits_injective hdata

/-! ### Dict and set model -/

/-- A Python `dict[str, str]` as an association list (insertion order kept). -/
abbrev CacheT := List (String × String)

/-- `d.get(k)` / `d[k]`. -/
def dget : CacheT → String → Option String
  | [], _ => none
  | (k, v) :: rest, key => if k = key then some v else dget rest key

/-- `k in d`. -/
def dhas (c : CacheT) (k : String) : Bool := (dget c k).isSome

/-- `d[k] = v`: replace in place when the key exists, else append. -/
def dset (c : CacheT) (k v : String) : CacheT :=
  if dhas c k then c.map (fun p => if p.1 = k then (k, v) else p)
  else c ++ [(k, v)]

/-- `del d[k]` (on dict-shaped lists the key occurs at most once). -/
def ddel (c : CacheT) (k : String) : CacheT :=
  c.filter (fun p => p.1 ≠ k)

/-- The key list of a dict. -/
def dkeys (c : CacheT) : List String := c.map Prod.fst

/-- `s.add(x)` for a set modelled as a duplicate-free list. -/
def sadd (s : List String) (x : String) : List String :=
  if x ∈ s then s else s ++ [x]

/-- `s.discard(x)`. -/
def sdel (s : List String) (x : String) : List String :=
  s.filter (fun y => y ≠ x)

/-! ### `choose_filename` (get_image.py lines 92-113) -/

/-- The candidate sequence of the resolver loop: `base + ext` first, then
`f"{base}_{counter}{ext}"` for `counter = 2, 3, …`. -/
def candidateOf (base ext : String) : Nat → String
  | 0 => base ++ ext
  | k + 1 => base ++ "_" ++ Nat.repr (k + 2) ++ ext

/-- `conflict_cache or conflict_reserved` for one candidate (lines 105-106). -/
def conflictAt (image_cache : CacheT) (reserved : List String)
    (url cand : String) : Bool :=
  (match dget image_cache cand with
   | some u => u ≠ url
   | none => false) ||
  (reserved.contains cand && !dhas image_cache cand)

/-- The `while True` loop of `choose_filename`, with explicit fuel;
`i` indexes the candidate sequence. -/
def chooseAux (base ext url : String) (image_cache : CacheT)
    (reserved : List String) : Nat → Nat → Option String
  | 0, _ => none
  | fuel + 1, i =>
    let cand := candidateOf base ext i
    if conflictAt image_cache reserved url cand then
      chooseAux base ext url image_cache reserved fuel (i + 1)
    else some cand

/-- `choose_filename`: the loop runs until the first conflict-free
candidate; `fuelOf` is proved sufficient below, so `getD` never fires. -/
def fuelOf (image_cache : CacheT) (reserved : List String) : Nat :=
  image_cache.length + reserved.length + 1

def choose_filename (base ext url : String) (image_cache : CacheT)
    (reserved : List String) : String :=
  (chooseAux base ext url image_cache reserved
    (fuelOf image_cache reserved) 0).getD (base ++ ext)

/-! ### Termination and postcondition of the resolver loop -/

theorem dget_mem_dkeys {c : CacheT} {k v : String} (h : dget c k = some v) :
    k ∈ dkeys c := by
  induction c with
  | nil => simp [dget] at h
  | cons p rest ih =>
    by_cases hk : p.1 = k
    · simp [dkeys, hk]
    · simp only [dget, hk, if_false] at h
      simp [dkeys] at ih ⊢
      right
      simpa [dkeys] using ih h

theorem candidateOf_injective (base ext : String) :
    Function.Injective (candidateOf base ext) := by
  have hlen : ∀ k : Nat, (candidateOf base ext (k + 1)).length >
      (candidateOf base ext 0).length := by
    intro k
    simp only [candidateOf, String.length_append]
    have : 0 < ("_" : String).length := by decide
    omega
  intro m n h
  match m, n with
  | 0, 0 => rfl
  | 0, k + 1 => exact absurd (congrArg String.length h.symm) (by have := hlen k; omega)
  | k + 1, 0 => exact absurd (congrArg String.length h) (by have := hlen k; omega)
  | k + 1, j + 1 =>
    simp only [candidateOf] at h
    have hdata := congrArg String.data h
    simp only [String.data_append] at hdata
    have h1 := List.append_cancel_right hdata
    have h2 := List.append_cancel_left h1
    have hrepr : Nat.repr (k + 2) = Nat.repr (j + 2) := by
      apply String.ext
      exact h2
    have := nat_repr_injective hrepr
    omega

theorem conflictAt_mem {image_cache : CacheT} {reserved : List String}
    {url cand : String} (h : conflictAt image_cache reserved url cand = true) :
    cand ∈ dkeys image_cache ++ reserved := by
  simp only [conflictAt, Bool.or_eq_true, Bool.and_eq_true] at h
  rcases h with h | ⟨h, _⟩
  · match hc : dget image_cache cand with
    | some u => exact List.mem_append_left _ (dget_mem_dkeys hc)
    | none => rw [hc] at h; simp at h
  · exact List.mem_append_right _ (by simpa using h)

theorem exists_conflict_free (base ext url : String) (image_cache : CacheT)
    (reserved : List String) :
    ∃ i ≤ image_cache.length + reserved.length,
      conflictAt image_cache reserved url (candidateOf base ext i) = false := by
  by_contra hcon
  push_neg at hcon
  have hall : ∀ i ≤ image_cache.length + reserved.length,
      conflictAt image_cache reserved url (candidateOf base ext i) = true := by
    intro i hi
    have := hcon i hi
    revert this
    cases conflictAt image_cache reserved url (candidateOf base ext i) <;> simp
  set N := image_cache.length + reserved.length with hN
  set S := dkeys image_cache ++ reserved with hS
  have hSlen : S.length = N := by
    simp [hS, hN, dkeys]
  set L := (List.range (N + 1)).map (candidateOf base ext) with hL
  have hnodup : L.Nodup :=
    (List.nodup_range (N + 1)).map (candidateOf_injective base ext)
  have hsub : L ⊆ S := by
    intro x hx
    simp only [hL, List.mem_map, List.mem_range] at hx
    obtain ⟨i, hi, rfl⟩ := hx
    exact conflictAt_mem (hall i (by omega))
  have hlen : L.length ≤ S.length := by
    calc L.length = L.toFinset.card := (List.toFinset_card_of_nodup hnodup).symm
      _ ≤ S.toFinset.card := Finset.card_le_card (fun x hx => by
          simp only [List.mem_toFinset] at *
          exact hsub hx)
      _ ≤ S.length := S.toFinset_card_le
  have : L.length = N + 1 := by simp [hL]
  omega

theorem chooseAux_some_of_free (base ext url : String) (image_cache : CacheT)
    (reserved : List String) :
    ∀ (fuel i : Nat),
      (∃ j, i ≤ j ∧ j < i + fuel ∧
        conflictAt image_cache reserved url (candidateOf base ext j) = false) →
      ∃ c, chooseAux base ext url image_cache reserved fuel i = some c := by
  intro fuel
  induction fuel with
  | zero =>
    intro i ⟨j, h1, h2, _⟩
    omega
  | succ fuel ih =>
    intro i ⟨j, h1, h2, h3⟩
    by_cases hc : conflictAt image_cache reserved url (candidateOf base ext i) = true
    · have hji : j ≠ i := by
        intro he
        rw [he] at h3
        rw [h3] at hc
        exact Bool.false_ne_true hc
      have := ih (i + 1) ⟨j, by omega, by omega, h3⟩
      simpa [chooseAux, hc] using this
    · exact ⟨candidateOf base ext i, by simp [chooseAux, hc]⟩

theorem chooseAux_post (base ext url : String) (image_cache : CacheT)
    (reserved : List String) :
    ∀ (fuel i : Nat) (c : String),
      chooseAux base ext url image_cache reserved fuel i = some c →
      conflictAt image_cache reserved url c = false := by
  intro fuel
  induction fuel with
  | zero => intro i c h; simp [chooseAux] at h
  | succ fuel ih =>
    intro i c h
    by_cases hc : conflictAt image_cache reserved url (candidateOf base ext i) = true
    · simp only [chooseAux, hc, if_true] at h
      exact ih (i + 1) c h
    · have hcf : conflictAt image_cache reserved url (candidateOf base ext i) = false := by
        revert hc
        cases conflictAt image_cache reserved url (candidateOf base ext i) <;> simp
      simp [chooseAux, hcf] at h
      rw [← h]
      exact hcf

theorem chooseAux_isSome (base ext url : String) (image_cache : CacheT)
    (reserved : List String) :
    ∃ c, chooseAux base ext url image_cache reserved
      (fuelOf image_cache reserved) 0 = some c := by
  obtain ⟨i, hi, hfree⟩ := exists_conflict_free base ext url image_cache reserved
  exact chooseAux_some_of_free base ext url image_cache reserved _ 0
    ⟨i, Nat.zero_le i, by simp only [fuelOf]; omega, hfree⟩

theorem choose_filename_no_conflict (base ext url : String)
    (image_cache : CacheT) (reserved : List String) :
    conflictAt image_cache reserved url
      (choose_filename base ext url image_cache reserved) = false := by
  obtain ⟨c, hc⟩ := chooseAux_isSome base ext url image_cache reserved
  have : choose_filename base ext url image_cache reserved = c := by
    simp [choose_filename, hc]
  rw [this]
  exact chooseAux_post base ext url image_cache reserved _ 0 c hc

/-! ### Asset fetcher: `download_image` (get_image.py lines 72-89)

The filesystem footprint of one `download_image(url, destination)` call is
made explicit: the destination slot, the `.part` sibling slot, and the
trace of operations performed on them.  The network is an oracle mapping
the attempt number to that attempt's outcome (full body streamed, or an
exception carrying the HTTP status when one exists). -/

/-- File operations on a destination and its temporary `.part` sibling. -/
inductive FileOp where
  | writeWhole       -- direct whole-file write of the destination
  | writeTempSibling -- streaming write of `destination + ".part"`
  | renameTempInto   -- `temp_path.replace(destination)`: atomic rename
  | unlinkTemp       -- `temp_path.unlink(missing_ok=True)`
deriving DecidableEq

/-- Outcome of one HTTP attempt as seen by `download_image`:
either the full body, or an exception (with the HTTP status when the
failure is an HTTP error; `none` for transport-level errors). -/
inductive AttemptRes where
  | ok (content : String)
  | fail (status : Option Nat)
deriving DecidableEq

/-- Destination / temp-file state during a `download_image` call. -/
structure DlSt where
  dest : Option String
  temp : Option String
  ops : List FileOp
  attempted : Nat
deriving DecidableEq

/-- The statuses retried by the HTTP adapter (`build_session`,
get_image.py line 62). -/
def status_forcelist : List Nat := [429, 500, 502, 503, 504]

/-- The `for attempt in range(1, retries + 1)` loop of `download_image`.
`remaining` counts the attempts still allowed (`remaining = 0` inside the
match corresponds to `attempt == retries`); the second component is
`none` on a normal return and `some status` when the final exception
propagates.  On success the body is streamed into the temp sibling and
the destination is replaced in a single rename; on an exception the temp
sibling is unlinked. -/
def download_go (oracle : Nat → AttemptRes) :
    Nat → Nat → DlSt → DlSt × Option (Option Nat)
  | 0, _, st => (st, none)
  | remaining + 1, attempt, st =>
    let st := { st with attempted := st.attempted + 1 }
    match oracle attempt with
    | .ok content =>
      ({ st with
          temp := none
          dest := some content
          ops := st.ops ++ [.writeTempSibling, .renameTempInto] }, none)
    | .fail status =>
      let st := { st with temp := none, ops := st.ops ++ [.unlinkTemp] }
      if remaining = 0 then (st, some status)
      else download_go oracle remaining (attempt + 1) st

/-- `download_image(url, destination, session, retries=3)` acting on a
destination whose prior content is `dest0`. -/
def download_image (oracle : Nat → AttemptRes) (retries : Nat)
    (dest0 : Option String) : DlSt × Option (Option Nat) :=
  download_go oracle retries 1 { dest := dest0, temp := none, ops := [], attempted := 0 }

/-- `save_json` (get_image.py lines 31-32): `path.write_text(...)`, a
single direct whole-file write of the destination. -/
def save_json_ops : List FileOp := [.writeWhole]

/-- A sequence of file operations updates the destination atomically when
the destination only ever receives content through a rename of the fully
written temp sibling — never through a direct write. -/
def isAtomicReplace (ops : List FileOp) : Prop := FileOp.writeWhole ∉ ops

/-! ### Cache reconciler: `main` (get_image.py lines 116-191) -/

/-- One poster record of the manifest (`meta["posters"]`), restricted to
the fields the reconciler reads. -/
structure Poster where
  title : String
  images : List String
deriving DecidableEq

/-- Observable events of one run, in order. -/
inductive Ev where
  | resolved (url name : String)   -- choose_filename returned `name` for `url`
  | skip (name : String)           -- skip branch (lines 145-151)
  | renamed (old new : String)     -- rename branch (lines 158-167)
  | staleDrop (name : String)      -- stale-entry drop (lines 169-171)
  | fetched (url name : String)    -- successful download (lines 180-184)
  | fetchFailed (url : String)     -- download raised; run continues (176-178)
  | cacheWrite                     -- save_json(IMAGE_CACHE_PATH, ...) (186)
deriving DecidableEq

/-- The mutable state of `main`: the persistent name cache (in memory),
the derived URL→filename index, the reserved-names set, the files present
in `assets/`, the three counters, and the event trace. -/
structure St where
  image_cache : CacheT
  url_to_filename : CacheT
  reserved_names : List String
  files : List String
  downloaded : Nat
  renamed : Nat
  skipped : Nat
  trace : List Ev
deriving DecidableEq

/-- `assets` directory update for a file creation/overwrite. -/
def addFile (files : List String) (n : String) : List String :=
  if n ∈ files then files else files ++ [n]

/-- `assets` directory update for a removal (rename source). -/
def delFile (files : List String) (n : String) : List String :=
  files.filter (fun m => m ≠ n)

/-- The fetch fall-through of the loop body (lines 173-184): download to
`assets/target`, then on success install the name in the cache, the index
and the reserved set; on an exception report and continue.  `ok url`
abstracts whether `download_image` succeeds for `url` (its effects on the
destination are exactly those proved in the `download_image` theorems:
the file appears on success, nothing changes on failure). -/
def fetchStep (ok : String → Bool) (st : St) (url target : String) : St :=
  if ok url then
    { st with
        files := addFile st.files target
        image_cache := dset st.image_cache target url
        url_to_filename := dset st.url_to_filename url target
        reserved_names := sadd st.reserved_names target
        downloaded := st.downloaded + 1
        trace := st.trace ++ [.fetched url target] }
  else
    { st with trace := st.trace ++ [.fetchFailed url] }

/-- The body of the inner loop of `main` (lines 136-184) for one
`(poster, url)` pair at position `idx` of `total` images. -/
def processUrl (ok : String → Bool) (st : St) (title : String)
    (idx total : Nat) (url : String) : St :=
  if url = "" then st
  else
    let fe := filename_from_title title url idx total
    let target := choose_filename fe.1 fe.2 url st.image_cache st.reserved_names
    let st := { st with trace := st.trace ++ [.resolved url target] }
    if dget st.image_cache target = some url ∧ target ∈ st.files then
      -- already cached with correct name and present on disk
      { st with skipped := st.skipped + 1, trace := st.trace ++ [.skip target] }
    else
      match dget st.url_to_filename url with
      | some existing =>
        if existing ≠ "" ∧ existing ≠ target then
          if existing ∈ st.files then
            -- rename in place, no re-fetch
            { st with
                files := addFile (delFile st.files existing) target
                image_cache := dset (ddel st.image_cache existing) target url
                url_to_filename := dset st.url_to_filename url target
                reserved_names := sadd (sdel st.reserved_names existing) target
                renamed := st.renamed + 1
                trace := st.trace ++ [.renamed existing target] }
          else
            -- stale cache entry: drop it, then re-download
            let st := { st with
                image_cache := ddel st.image_cache existing
                reserved_names := sdel st.reserved_names existing
                trace := st.trace ++ [.staleDrop existing] }
            fetchStep ok st url target
        else fetchStep ok st url target
      | none => fetchStep ok st url target

/-- `for idx, url in enumerate(images)`. -/
def processImages (ok : String → Bool) (title : String) (total : Nat) :
    St → Nat → List String → St
  | st, _, [] => st
  | st, idx, url :: rest =>
    processImages ok title total (processUrl ok st title idx total url) (idx + 1) rest

/-- One poster of the outer loop. -/
def processPoster (ok : String → Bool) (st : St) (p : Poster) : St :=
  processImages ok p.title p.images.length st 0 p.images

/-- The full reconciliation loop over the manifest. -/
def runPosters (ok : String → Bool) (st : St) (ps : List Poster) : St :=
  ps.foldl (processPoster ok) st

/-- `{url: name for name, url in image_cache.items()}` (line 124):
later items win. -/
def invertCache (c : CacheT) : CacheT :=
  c.foldl (fun acc p => dset acc p.2 p.1) []

/-- The initial in-memory state of a run, from the loaded cache and the
files already present in `assets/` (lines 123-131). -/
def initSt (image_cache : CacheT) (files : List String) : St :=
  { image_cache := image_cache
    url_to_filename := invertCache image_cache
    reserved_names := dkeys image_cache
    files := files
    downloaded := 0
    renamed := 0
    skipped := 0
    trace := [] }

/-- `main()`: fail hard when the manifest is unreadable (line 117-118);
otherwise run the reconciler over every poster, then write the cache back
once and report the summary (lines 186-191). -/
def main_model (manifest : Option (List Poster)) (ok : String → Bool)
    (image_cache : CacheT) (files : List String) : Except String St :=
  match manifest with
  | none => .error "Meta cache not found"
  | some posters =>
    let st := runPosters ok (initSt image_cache files) posters
    .ok { st with trace := st.trace ++ [.cacheWrite] }

/-! ## Claim theorems -/

/-! ### C10 — resolver termination and postcondition -/

theorem conflictAt_false_cache {image_cache : CacheT} {reserved : List String}
    {url cand u : String}
    (h : conflictAt image_cache reserved url cand = false)
    (hu : dget image_cache cand = some u) : u = url := by
  simp only [conflictAt, Bool.or_eq_false_iff] at h
  have h1 := h.1
  rw [hu] at h1
  simpa using h1

theorem conflictAt_false_reserved {image_cache : CacheT} {reserved : List String}
    {url cand : String}
    (h : conflictAt image_cache reserved url cand = false)
    (hm : cand ∈ reserved) : dhas image_cache cand = true := by
  simp only [conflictAt, Bool.or_eq_false_iff] at h
  have h2 := h.2
  have hcont : reserved.contains cand = true := by simpa using hm
  rw [hcont] at h2
  simp only [Bool.true_and, Bool.not_eq_false'] at h2
  exact h2

/-- **C10**: for every `base`, `ext`, `url`, every finite cache and every
finite reserved set, the `while True` loop of `choose_filename` terminates
(within `len(image_cache) + len(reserved) + 1` probes), and the candidate
it returns has neither a cache conflict (bound in the cache to a different
URL) nor a reserved conflict (reserved while absent from the cache). -/
theorem choose_filename_terminates_and_conflict_free
    (base ext url : String) (image_cache : CacheT) (reserved : List String) :
    (∃ c, chooseAux base ext url image_cache reserved
        (fuelOf image_cache reserved) 0 = some c ∧
        choose_filename base ext url image_cache reserved = c) ∧
    (∀ u, dget image_cache
        (choose_filename base ext url image_cache reserved) = some u → u = url) ∧
    (choose_filename base ext url image_cache reserved ∈ reserved →
      dhas image_cache (choose_filename base ext url image_cache reserved) = true) := by
  obtain ⟨c, hc⟩ := chooseAux_isSome base ext url image_cache reserved
  have heq : choose_filename base ext url image_cache reserved = c := by
    simp [choose_filename, hc]
  have hnc := choose_filename_no_conflict base ext url image_cache reserved
  refine ⟨⟨c, hc, heq⟩, ?_, ?_⟩
  · intro u hu
    exact conflictAt_false_cache hnc hu
  · intro hm
    exact conflictAt_false_reserved hnc hm

/-- Witness for C10 on a concrete conflict: with `Dup.jpg` cached for a
different URL, the resolver advances to `Dup_2.jpg`, and the no-cache-conflict
conclusion is discharged at that input. -/
theorem choose_filename_terminates_witness :
    choose_filename "Dup" ".jpg" "u2" [("Dup.jpg", "u1")] ["Dup.jpg"] = "Dup_2.jpg" ∧
    (∀ u, dget [("Dup.jpg", "u1")]
        (choose_filename "Dup" ".jpg" "u2" [("Dup.jpg", "u1")] ["Dup.jpg"]) = some u →
        u = "u2") :=
  ⟨by decide,
   (choose_filename_terminates_and_conflict_free "Dup" ".jpg" "u2"
      [("Dup.jpg", "u1")] ["Dup.jpg"]).2.1⟩

/-! ### C7 — the title/stem fallback chain of the filename deriver -/

/-- The base-name rule as the spec words it (section 4.1), for comparison
with the source's `filename_from_title`: clean the title; if the cleaned
title is empty, fall back to the same sanitation applied to the URL's path
stem; if that is also empty, use the literal fallback `"image"`. -/
def spec_base_name (title url : String) : String :=
  let ct := cleaned_title title
  if ct ≠ [] then ⟨ct⟩
  else
    let cs := cleaned_title (pathStem (urlparse_path url))
    if cs ≠ [] then ⟨cs⟩ else "image"

/-- **C7 counterexample**: for an empty title and URL path stem `foo`, the
spec's rule yields `"foo"` but `filename_from_title` yields `"image"` —
`sanitize_title` already substitutes `"image"` for an empty cleaned title,
so the stem fallback in `filename_from_title` never fires. -/
theorem deriver_fallback_counterexample :
    cleaned_title "" = [] ∧
    spec_base_name "" "http://x/foo.png" = "foo" ∧
    (filename_from_title "" "http://x/foo.png" 0 1).1 = "image" ∧
    (filename_from_title "" "http://x/foo.png" 0 1).1 ≠
      spec_base_name "" "http://x/foo.png" := by
  decide

/-- **C7 amended**: `sanitize_title` never returns the empty string (its
own `or "image"` fallback engages first), so the base name produced by
`filename_from_title` is always the sanitized title (with the positional
suffix when `total > 1`); the URL-stem fallback expression is dead code. -/
theorem filename_base_always_sanitized_title (title url : String)
    (index total : Nat) :
    sanitize_title title ≠ "" ∧
    (filename_from_title title url index total).1 =
      (if total > 1 then sanitize_title title ++ "_" ++ Nat.repr (index + 1)
       else sanitize_title title) := by
  have hne : sanitize_title title ≠ "" := by
    unfold sanitize_title
    by_cases h : cleaned_title title = []
    · simp only [h, if_true]
      decide
    · simp only [h, if_false]
      intro hc
      exact h (congrArg String.data hc)
  refine ⟨hne, ?_⟩
  unfold filename_from_title
  simp only [hne, if_false]

/-! ### C2 / C6 — `download_image` frame conditions and retry budget -/

theorem download_go_ok (oracle : Nat → AttemptRes) (remaining attempt : Nat)
    (st : DlSt) (content : String) (h : oracle attempt = .ok content) :
    download_go oracle (remaining + 1) attempt st =
      ({ dest := some content, temp := none,
         ops := st.ops ++ [.writeTempSibling, .renameTempInto],
         attempted := st.attempted + 1 }, none) := by
  simp [download_go, h]

theorem download_go_fail_last (oracle : Nat → AttemptRes) (attempt : Nat)
    (st : DlSt) (status : Option Nat) (h : oracle attempt = .fail status) :
    download_go oracle 1 attempt st =
      ({ dest := st.dest, temp := none, ops := st.ops ++ [.unlinkTemp],
         attempted := st.attempted + 1 }, some status) := by
  simp [download_go, h]

theorem download_go_fail_step (oracle : Nat → AttemptRes)
    (remaining attempt : Nat) (st : DlSt) (status : Option Nat)
    (h : oracle attempt = .fail status) :
    download_go oracle (remaining + 2) attempt st =
      download_go oracle (remaining + 1) (attempt + 1)
        { dest := st.dest, temp := none, ops := st.ops ++ [.unlinkTemp],
          attempted := st.attempted + 1 } := by
  simp [download_go, h]

theorem download_go_spec (oracle : Nat → AttemptRes) :
    ∀ (rem attempt : Nat) (st : DlSt),
      ((download_go oracle (rem + 1) attempt st).2 = none →
        (download_go oracle (rem + 1) attempt st).1.temp = none ∧
        (download_go oracle (rem + 1) attempt st).1.ops.count FileOp.renameTempInto =
          st.ops.count FileOp.renameTempInto + 1 ∧
        (FileOp.writeWhole ∈ (download_go oracle (rem + 1) attempt st).1.ops ↔
          FileOp.writeWhole ∈ st.ops) ∧
        ∃ i c, oracle i = AttemptRes.ok c ∧
          (download_go oracle (rem + 1) attempt st).1.dest = some c) ∧
      (∀ e, (download_go oracle (rem + 1) attempt st).2 = some e →
        (download_go oracle (rem + 1) attempt st).1.dest = st.dest ∧
        (download_go oracle (rem + 1) attempt st).1.temp = none ∧
        (download_go oracle (rem + 1) attempt st).1.ops.count FileOp.renameTempInto =
          st.ops.count FileOp.renameTempInto ∧
        (FileOp.writeWhole ∈ (download_go oracle (rem + 1) attempt st).1.ops ↔
          FileOp.writeWhole ∈ st.ops)) := by
  intro rem
  induction rem with
  | zero =>
    intro attempt st
    cases ho : oracle attempt with
    | ok content =>
      rw [download_go_ok oracle 0 attempt st content ho]
      refine ⟨fun _ => ⟨rfl, ?_, ?_, attempt, content, ho, rfl⟩, fun e he => by simp at he⟩
      · simp [List.count_append]
      · simp
    | fail status =>
      rw [download_go_fail_last oracle attempt st status ho]
      refine ⟨fun hn => by simp at hn, fun e _ => ⟨rfl, rfl, ?_, ?_⟩⟩
      · simp [List.count_append]
      · simp
  | succ rem ih =>
    intro attempt st
    cases ho : oracle attempt with
    | ok content =>
      rw [download_go_ok oracle (rem + 1) attempt st content ho]
      refine ⟨fun _ => ⟨rfl, ?_, ?_, attempt, content, ho, rfl⟩, fun e he => by simp at he⟩
      · simp [List.count_append]
      · simp
    | fail status =>
      rw [download_go_fail_step oracle rem attempt st status ho]
      have h2 := ih (attempt + 1)
        { dest := st.dest, temp := none, ops := st.ops ++ [.unlinkTemp],
          attempted := st.attempted + 1 }
      refine ⟨fun hn => ?_, fun e he => ?_⟩
      · obtain ⟨ht, hcnt, hmem, i, c, hi, hd⟩ := h2.1 hn
        refine ⟨ht, ?_, ?_, i, c, hi, hd⟩
        · rw [hcnt]; simp [List.count_append]
        · rw [hmem]; simp
      · obtain ⟨hd, ht, hcnt, hmem⟩ := h2.2 e he
        refine ⟨hd, ht, ?_, ?_⟩
        · rw [hcnt]; simp [List.count_append]
        · rw [hmem]; simp

/-- **C2**: for every call to `download_image` with at least one attempt
allowed: on success (normal return) the destination holds exactly the body
of a successful attempt, installed by a single atomic rename of the temp
file (one `renameTempInto`, never a direct write), and the `.part` sibling
is gone; on failure (exception after the retry loop) the destination is
untouched — its prior content survives — the temp file has been deleted,
and no rename ever touched the destination. -/
theorem download_image_frame (oracle : Nat → AttemptRes) (retries : Nat)
    (dest0 : Option String) (h : 1 ≤ retries) :
    ((download_image oracle retries dest0).2 = none →
      (download_image oracle retries dest0).1.temp = none ∧
      (download_image oracle retries dest0).1.ops.count FileOp.renameTempInto = 1 ∧
      FileOp.writeWhole ∉ (download_image oracle retries dest0).1.ops ∧
      ∃ i c, oracle i = AttemptRes.ok c ∧
        (download_image oracle retries dest0).1.dest = some c) ∧
    (∀ e, (download_image oracle retries dest0).2 = some e →
      (download_image oracle retries dest0).1.dest = dest0 ∧
      (download_image oracle retries dest0).1.temp = none ∧
      (download_image oracle retries dest0).1.ops.count FileOp.renameTempInto = 0 ∧
      FileOp.writeWhole ∉ (download_image oracle retries dest0).1.ops) := by
  obtain ⟨rem, rfl⟩ : ∃ rem, retries = rem + 1 :=
    ⟨retries - 1, by omega⟩
  have hs := download_go_spec oracle rem 1
    { dest := dest0, temp := none, ops := [], attempted := 0 }
  unfold download_image
  refine ⟨fun hn => ?_, fun e he => ?_⟩
  · obtain ⟨ht, hcnt, hmem, i, c, hi, hd⟩ := hs.1 hn
    exact ⟨ht, by simpa using hcnt, by simpa using hmem.not.mpr (by simp),
      i, c, hi, hd⟩
  · obtain ⟨hd, ht, hcnt, hmem⟩ := hs.2 e he
    exact ⟨hd, ht, by simpa using hcnt, by simpa using hmem.not.mpr (by simp)⟩

/-- Witness for C2: a first-try success with body `"BODY"` at an empty
destination, retry budget 3. -/
theorem download_image_frame_witness :
    1 ≤ 3 ∧
    (((download_image (fun _ => AttemptRes.ok "BODY") 3 none).2 = none →
      (download_image (fun _ => AttemptRes.ok "BODY") 3 none).1.temp = none ∧
      (download_image (fun _ => AttemptRes.ok "BODY") 3 none).1.ops.count
        FileOp.renameTempInto = 1 ∧
      FileOp.writeWhole ∉ (download_image (fun _ => AttemptRes.ok "BODY") 3 none).1.ops ∧
      ∃ i c, (fun _ : Nat => AttemptRes.ok "BODY") i = AttemptRes.ok c ∧
        (download_image (fun _ => AttemptRes.ok "BODY") 3 none).1.dest = some c) ∧
    (∀ e, (download_image (fun _ => AttemptRes.ok "BODY") 3 none).2 = some e →
      (download_image (fun _ => AttemptRes.ok "BODY") 3 none).1.dest = none ∧
      (download_image (fun _ => AttemptRes.ok "BODY") 3 none).1.temp = none ∧
      (download_image (fun _ => AttemptRes.ok "BODY") 3 none).1.ops.count
        FileOp.renameTempInto = 0 ∧
      FileOp.writeWhole ∉ (download_image (fun _ => AttemptRes.ok "BODY") 3 none).1.ops)) :=
  ⟨by decide, download_image_frame (fun _ => AttemptRes.ok "BODY") 3 none (by decide)⟩

/-- **C6 counterexample**: a terminal 404 — outside the adapter's retry
set `{429, 500, 502, 503, 504}` — is retried by `download_image`'s own
loop like any other exception: with the default budget of 3 the failure
only surfaces after all 3 attempts, not immediately. -/
theorem nonretryable_exhausts_budget_counterexample :
    (404 ∈ status_forcelist) = False ∧
    (download_image (fun _ => AttemptRes.fail (some 404)) 3 none).1.attempted = 3 ∧
    (download_image (fun _ => AttemptRes.fail (some 404)) 3 none).2 =
      some (some 404) := by
  refine ⟨by simp [status_forcelist], by decide, by decide⟩

theorem download_go_all_fail (oracle : Nat → AttemptRes)
    (hfail : ∀ i c, oracle i ≠ AttemptRes.ok c) :
    ∀ (rem attempt : Nat) (st : DlSt),
      (download_go oracle (rem + 1) attempt st).1.attempted =
        st.attempted + (rem + 1) ∧
      ∃ e, (download_go oracle (rem + 1) attempt st).2 = some e := by
  intro rem
  induction rem with
  | zero =>
    intro attempt st
    cases ho : oracle attempt with
    | ok content => exact absurd ho (hfail attempt content)
    | fail status =>
      rw [download_go_fail_last oracle attempt st status ho]
      exact ⟨rfl, status, rfl⟩
  | succ rem ih =>
    intro attempt st
    cases ho : oracle attempt with
    | ok content => exact absurd ho (hfail attempt content)
    | fail status =>
      rw [download_go_fail_step oracle rem attempt st status ho]
      have h2 := ih (attempt + 1)
        { dest := st.dest, temp := none, ops := st.ops ++ [.unlinkTemp],
          attempted := st.attempted + 1 }
      refine ⟨?_, h2.2⟩
      rw [h2.1]
      show st.attempted + 1 + (rem + 1) = st.attempted + (rem + 1 + 1)
      omega

/-- **C6 amended**: `download_image` applies its outer retry loop uniformly
to every exception — non-retryable HTTP failures included — so any
always-failing fetch (e.g. a terminal 4xx outside the retry set) consumes
the full attempt budget before the failure surfaces as a per-item error;
only the transport adapter of `build_session` distinguishes the retryable
statuses. -/
theorem download_image_failure_uses_full_budget (oracle : Nat → AttemptRes)
    (retries : Nat) (dest0 : Option String) (h : 1 ≤ retries)
    (hfail : ∀ i c, oracle i ≠ AttemptRes.ok c) :
    (download_image oracle retries dest0).1.attempted = retries ∧
    ∃ e, (download_image oracle retries dest0).2 = some e := by
  obtain ⟨rem, rfl⟩ : ∃ rem, retries = rem + 1 := ⟨retries - 1, by omega⟩
  have := download_go_all_fail oracle hfail rem 1
    { dest := dest0, temp := none, ops := [], attempted := 0 }
  unfold download_image
  refine ⟨?_, this.2⟩
  rw [this.1]
  show (0 : Nat) + (rem + 1) = rem + 1
  omega

/-- Witness for the amended C6: the 404 oracle with budget 3 uses 3
attempts and surfaces the failure. -/
theorem download_image_failure_budget_witness :
    1 ≤ 3 ∧ (∀ i c, (fun _ : Nat => AttemptRes.fail (some 404)) i ≠ AttemptRes.ok c) ∧
    ((download_image (fun _ => AttemptRes.fail (some 404)) 3 none).1.attempted = 3 ∧
      ∃ e, (download_image (fun _ => AttemptRes.fail (some 404)) 3 none).2 = some e) :=
  ⟨by decide, fun i c => by simp,
   download_image_failure_uses_full_budget (fun _ => AttemptRes.fail (some 404)) 3 none
     (by decide) (fun i c => by simp)⟩

/-! ### C4 / C5 — failure tolerance and the single final cache write -/

/-- Is this event a resolver result? -/
def isResolvedEv : Ev → Bool
  | .resolved _ _ => true
  | _ => false

/-- Number of `(poster, url)` pairs the run actually processed. -/
def countResolved (t : List Ev) : Nat := (t.filter isResolvedEv).length

/-- Number of non-empty URLs in the manifest. -/
def nonEmptyCount (ps : List Poster) : Nat :=
  (ps.map (fun p => (p.images.filter (fun u => u ≠ "")).length)).sum


theorem countResolved_append (a b : List Ev) :
    countResolved (a ++ b) = countResolved a + countResolved b := by
  simp [countResolved, List.filter_append]

theorem fetchStep_cacheWrite (ok : String → Bool) (st : St) (url target : String) :
    (fetchStep ok st url target).trace.count Ev.cacheWrite =
      st.trace.count Ev.cacheWrite := by
  by_cases h : ok url <;> simp [fetchStep, h, List.count_append]

theorem fetchStep_countResolved (ok : String → Bool) (st : St) (url target : String) :
    countResolved (fetchStep ok st url target).trace = countResolved st.trace := by
  by_cases h : ok url <;>
    simp [fetchStep, h, countResolved_append, countResolved, isResolvedEv]

theorem processUrl_cacheWrite (ok : String → Bool) (st : St) (title : String)
    (idx total : Nat) (url : String) :
    (processUrl ok st title idx total url).trace.count Ev.cacheWrite =
      st.trace.count Ev.cacheWrite := by
  by_cases hu : url = ""
  · simp [processUrl, hu]
  · simp only [processUrl, if_neg hu]
    split
    · simp [List.count_append]
    · split
      · split
        · split
          · simp [List.count_append]
          · rw [fetchStep_cacheWrite]
            simp [List.count_append]
        · rw [fetchStep_cacheWrite]
          simp [List.count_append]
      · rw [fetchStep_cacheWrite]
        simp [List.count_append]

theorem processUrl_countResolved (ok : String → Bool) (st : St) (title : String)
    (idx total : Nat) (url : String) :
    countResolved (processUrl ok st title idx total url).trace =
      countResolved st.trace + (if url = "" then 0 else 1) := by
  by_cases hu : url = ""
  · simp [processUrl, hu]
  · simp only [processUrl, if_neg hu, hu, if_false]
    split
    · simp [countResolved_append, countResolved, isResolvedEv]
    · split
      · split
        · split
          · simp [countResolved_append, countResolved, isResolvedEv]
          · rw [fetchStep_countResolved]
            simp [countResolved_append, countResolved, isResolvedEv]
        · rw [fetchStep_countResolved]
          simp [countResolved_append, countResolved, isResolvedEv]
      · rw [fetchStep_countResolved]
        simp [countResolved_append, countResolved, isResolvedEv]

theorem processImages_cacheWrite (ok : String → Bool) (title : String)
    (total : Nat) :
    ∀ (urls : List String) (idx : Nat) (st : St),
      (processImages ok title total st idx urls).trace.count Ev.cacheWrite =
        st.trace.count Ev.cacheWrite := by
  intro urls
  induction urls with
  | nil => intro idx st; rfl
  | cons url rest ih =>
    intro idx st
    simp only [processImages]
    rw [ih, processUrl_cacheWrite]

theorem processImages_countResolved (ok : String → Bool) (title : String)
    (total : Nat) :
    ∀ (urls : List String) (idx : Nat) (st : St),
      countResolved (processImages ok title total st idx urls).trace =
        countResolved st.trace + (urls.filter (fun u => u ≠ "")).length := by
  intro urls
  induction urls with
  | nil => intro idx st; simp [processImages]
  | cons url rest ih =>
    intro idx st
    simp only [processImages]
    rw [ih, processUrl_countResolved]
    by_cases hu : url = ""
    · simp [hu, List.filter_cons]
    · simp [hu, List.filter_cons]
      omega

theorem runPosters_cacheWrite (ok : String → Bool) :
    ∀ (ps : List Poster) (st : St),
      (runPosters ok st ps).trace.count Ev.cacheWrite =
        st.trace.count Ev.cacheWrite := by
  intro ps
  induction ps with
  | nil => intro st; rfl
  | cons p rest ih =>
    intro st
    simp only [runPosters, List.foldl_cons]
    rw [show List.foldl (processPoster ok) (processPoster ok st p) rest =
      runPosters ok (processPoster ok st p) rest from rfl]
    rw [ih, processPoster, processImages_cacheWrite]

theorem runPosters_countResolved (ok : String → Bool) :
    ∀ (ps : List Poster) (st : St),
      countResolved (runPosters ok st ps).trace =
        countResolved st.trace + nonEmptyCount ps := by
  intro ps
  induction ps with
  | nil => intro st; simp [runPosters, nonEmptyCount]
  | cons p rest ih =>
    intro st
    simp only [runPosters, List.foldl_cons]
    rw [show List.foldl (processPoster ok) (processPoster ok st p) rest =
      runPosters ok (processPoster ok st p) rest from rfl]
    rw [ih, processPoster, processImages_countResolved]
    simp [nonEmptyCount]
    omega

/-- **C4**: a fetch failure never aborts the run.  For every manifest and
every network oracle — including ones that fail arbitrary URLs — `main`
returns successfully, every non-empty URL of the manifest is still
processed (one resolver event each), and the final cache write (after
which the summary prints) is the last event. -/
theorem run_tolerates_fetch_failures (posters : List Poster)
    (ok : String → Bool) (image_cache : CacheT) (files : List String) :
    ∃ st, main_model (some posters) ok image_cache files = Except.ok st ∧
      countResolved st.trace = nonEmptyCount posters ∧
      st.trace.getLast? = some Ev.cacheWrite := by
  refine ⟨_, rfl, ?_, ?_⟩
  · show countResolved ((runPosters ok (initSt image_cache files) posters).trace
      ++ [Ev.cacheWrite]) = nonEmptyCount posters
    rw [countResolved_append, runPosters_countResolved]
    simp [initSt, countResolved, isResolvedEv]
  · exact List.getLast?_concat _

/-- **C5 counterexample**: `save_json` is `path.write_text(...)` — a single
direct whole-file write of the cache path, not a write-to-temp-then-rename,
so the final cache write is not an atomic replacement. -/
theorem save_json_not_atomic_counterexample :
    save_json_ops = [FileOp.writeWhole] ∧ ¬ isAtomicReplace save_json_ops := by
  refine ⟨rfl, ?_⟩
  simp [isAtomicReplace, save_json_ops]

/-- **C5 amended**: the persistent cache file is written back exactly once
per run, at the very end — no `cacheWrite` happens during reconciliation,
so a crash mid-run loses only the in-memory updates — but that single
write is a direct whole-file overwrite (`path.write_text`), not an atomic
temp-file rename. -/
theorem cache_written_once_at_end (posters : List Poster) (ok : String → Bool)
    (image_cache : CacheT) (files : List String) (st : St)
    (h : main_model (some posters) ok image_cache files = Except.ok st) :
    st.trace.count Ev.cacheWrite = 1 ∧
    st.trace.getLast? = some Ev.cacheWrite := by
  have hst : st = { runPosters ok (initSt image_cache files) posters with
      trace := (runPosters ok (initSt image_cache files) posters).trace
        ++ [Ev.cacheWrite] } := by
    have := h.symm
    simpa [main_model] using this
  subst hst
  constructor
  · show ((runPosters ok (initSt image_cache files) posters).trace
      ++ [Ev.cacheWrite]).count Ev.cacheWrite = 1
    rw [List.count_append, runPosters_cacheWrite]
    simp [initSt]
  · exact List.getLast?_concat _

/-- Witness for the amended C5 on a concrete empty manifest. -/
theorem cache_written_once_witness :
    ∃ st, main_model (some []) (fun _ => true) [] [] = Except.ok st ∧
      st.trace.count Ev.cacheWrite = 1 ∧
      st.trace.getLast? = some Ev.cacheWrite :=
  ⟨_, rfl, cache_written_once_at_end [] (fun _ => true) [] [] _ rfl⟩

/-! ### C8 — the `Dup` / `Dup_2` collision scenario -/

/-- **C8**: with an empty cache and two posters both titled `Dup`, each
with one image at distinct `.jpg` URLs, the run resolves `Dup.jpg` for the
first and `Dup_2.jpg` for the second (collision counter engaged), fetches
both, and the final cache maps each filename to its own URL. -/
theorem dup_collision_scenario :
    (runPosters (fun _ => true) (initSt [] [])
      [⟨"Dup", ["http://a.example/one.jpg"]⟩,
       ⟨"Dup", ["http://a.example/two.jpg"]⟩]).image_cache =
      [("Dup.jpg", "http://a.example/one.jpg"),
       ("Dup_2.jpg", "http://a.example/two.jpg")] ∧
    (runPosters (fun _ => true) (initSt [] [])
      [⟨"Dup", ["http://a.example/one.jpg"]⟩,
       ⟨"Dup", ["http://a.example/two.jpg"]⟩]).trace =
      [Ev.resolved "http://a.example/one.jpg" "Dup.jpg",
       Ev.fetched "http://a.example/one.jpg" "Dup.jpg",
       Ev.resolved "http://a.example/two.jpg" "Dup_2.jpg",
       Ev.fetched "http://a.example/two.jpg" "Dup_2.jpg"] ∧
    ("http://a.example/one.jpg" : String) ≠ "http://a.example/two.jpg" := by
  refine ⟨by decide, by decide, by decide⟩

/-! ### C1 / C9 — cache-key uniqueness and cache/reserved agreement -/

theorem dhas_iff_mem_dkeys (c : CacheT) (k : String) :
    dhas c k = true ↔ k ∈ dkeys c := by
  induction c with
  | nil => simp [dhas, dget, dkeys]
  | cons p rest ih =>
    by_cases hp : p.1 = k
    · simp [dhas, dget, dkeys, hp]
    · simp only [dhas, dget, hp, if_false, dkeys, List.map_cons, List.mem_cons]
      rw [← dkeys]
      rw [show (dget rest k).isSome = dhas rest k from rfl]
      rw [ih]
      constructor
      · exact fun h => Or.inr h
      · rintro (h | h)
        · exact absurd h.symm hp
        · exact h

theorem dkeys_dset (c : CacheT) (k v : String) :
    dkeys (dset c k v) = if dhas c k then dkeys c else dkeys c ++ [k] := by
  by_cases h : dhas c k
  · simp only [dset, h, if_true, dkeys, List.map_map]
    congr 1
    funext p
    by_cases hp : p.1 = k
    · simp [hp]
    · simp [hp]
  · simp [dset, h, dkeys]

theorem mem_dkeys_ddel {c : CacheT} {k a : String} :
    k ∈ dkeys (ddel c a) ↔ k ∈ dkeys c ∧ k ≠ a := by
  simp only [dkeys, ddel, List.mem_map, List.mem_filter]
  constructor
  · rintro ⟨p, ⟨hp, hne⟩, rfl⟩
    exact ⟨⟨p, hp, rfl⟩, by simpa using hne⟩
  · rintro ⟨⟨p, hp, rfl⟩, hne⟩
    exact ⟨p, ⟨hp, by simpa using hne⟩, rfl⟩

theorem mem_sadd {s : List String} {x y : String} :
    y ∈ sadd s x ↔ y ∈ s ∨ y = x := by
  by_cases h : x ∈ s
  · simp only [sadd, h, if_true]
    constructor
    · exact fun hy => Or.inl hy
    · rintro (hy | rfl)
      · exact hy
      · exact h
  · simp [sadd, h]

theorem mem_sdel {s : List String} {x a : String} :
    x ∈ sdel s a ↔ x ∈ s ∧ x ≠ a := by
  simp [sdel, List.mem_filter]

theorem nodup_dkeys_dset {c : CacheT} {k v : String}
    (h : (dkeys c).Nodup) : (dkeys (dset c k v)).Nodup := by
  rw [dkeys_dset]
  by_cases hh : dhas c k
  · simpa [hh] using h
  · rw [if_neg (by simpa using hh)]
    rw [List.nodup_append]
    refine ⟨h, List.nodup_singleton k, ?_⟩
    intro x hx hxk
    simp only [List.mem_singleton] at hxk
    subst hxk
    exact hh ((dhas_iff_mem_dkeys c x).mpr hx)

theorem nodup_dkeys_ddel {c : CacheT} {a : String}
    (h : (dkeys c).Nodup) : (dkeys (ddel c a)).Nodup :=
  h.sublist ((c.filter_sublist).map Prod.fst)

theorem fetchStep_nodup (ok : String → Bool) (st : St) (url target : String)
    (h : (dkeys st.image_cache).Nodup) :
    (dkeys (fetchStep ok st url target).image_cache).Nodup := by
  by_cases ho : ok url
  · simp only [fetchStep, ho, if_true]
    exact nodup_dkeys_dset h
  · simpa [fetchStep, ho] using h

theorem processUrl_nodup (ok : String → Bool) (st : St) (title : String)
    (idx total : Nat) (url : String) (h : (dkeys st.image_cache).Nodup) :
    (dkeys (processUrl ok st title idx total url).image_cache).Nodup := by
  by_cases hu : url = ""
  · simpa [processUrl, hu] using h
  · simp only [processUrl, if_neg hu]
    split
    · exact h
    · split
      · split
        · split
          · exact nodup_dkeys_dset (nodup_dkeys_ddel h)
          · exact fetchStep_nodup ok _ url _ (nodup_dkeys_ddel h)
        · exact fetchStep_nodup ok _ url _ h
      · exact fetchStep_nodup ok _ url _ h

theorem processImages_nodup (ok : String → Bool) (title : String) (total : Nat) :
    ∀ (urls : List String) (idx : Nat) (st : St),
      (dkeys st.image_cache).Nodup →
      (dkeys (processImages ok title total st idx urls).image_cache).Nodup := by
  intro urls
  induction urls with
  | nil => intro idx st h; exact h
  | cons url rest ih =>
    intro idx st h
    exact ih (idx + 1) _ (processUrl_nodup ok st title idx total url h)

/-- **C1 counterexample**: two distinct URLs processed in the same run for
which `choose_filename` returns the *same* filename.  The first poster's
download fails, so nothing is installed for its URL, and the second
(distinct) URL resolves to the identical name `Dup.jpg`. -/
theorem resolver_duplicate_counterexample :
    (runPosters (fun u => u ≠ "http://a.example/one.jpg") (initSt [] [])
      [⟨"Dup", ["http://a.example/one.jpg"]⟩,
       ⟨"Dup", ["http://a.example/two.jpg"]⟩]).trace =
      [Ev.resolved "http://a.example/one.jpg" "Dup.jpg",
       Ev.fetchFailed "http://a.example/one.jpg",
       Ev.resolved "http://a.example/two.jpg" "Dup.jpg",
       Ev.fetched "http://a.example/two.jpg" "Dup.jpg"] ∧
    ("http://a.example/one.jpg" : String) ≠ "http://a.example/two.jpg" := by
  refine ⟨by decide, by decide⟩

/-- **C1 amended**: the persistent cache keeps its keys duplicate-free
across every run (so no filename is ever bound to two URLs), and the
resolver never returns a filename the cache currently binds to a different
URL — hence any two distinct URLs that both hold cache entries hold
distinct filenames.  The unconditional per-run distinctness of resolver
results, however, fails once a fetch fails (see the counterexample). -/
theorem cache_uniqueness_amended :
    (∀ (ok : String → Bool) (ps : List Poster) (st : St),
        (dkeys st.image_cache).Nodup →
        (dkeys (runPosters ok st ps).image_cache).Nodup) ∧
    (∀ (base ext url n u : String) (image_cache : CacheT) (reserved : List String),
        dget image_cache n = some u → u ≠ url →
        choose_filename base ext url image_cache reserved ≠ n) := by
  constructor
  · intro ok ps
    induction ps with
    | nil => intro st h; exact h
    | cons p rest ih =>
      intro st h
      exact ih _ (processImages_nodup ok p.title p.images.length p.images 0 st h)
  · intro base ext url n u image_cache reserved hget hne heq
    exact hne ((choose_filename_terminates_and_conflict_free base ext url
      image_cache reserved).2.1 u (heq ▸ hget))

/-- Witness for the amended C1: a concrete run keeps keys duplicate-free,
and the resolver avoids the name `Dup.jpg` owned by a different URL. -/
theorem cache_uniqueness_amended_witness :
    (dkeys (runPosters (fun _ => true) (initSt [] [])
      [⟨"Dup", ["http://a.example/one.jpg"]⟩] ).image_cache).Nodup ∧
    choose_filename "Dup" ".jpg" "u2" [("Dup.jpg", "u1")] ["Dup.jpg"] ≠ "Dup.jpg" :=
  ⟨cache_uniqueness_amended.1 (fun _ => true) _ _ (by decide),
   cache_uniqueness_amended.2 "Dup" ".jpg" "u2" "Dup.jpg" "u1" [("Dup.jpg", "u1")]
     ["Dup.jpg"] (by decide) (by decide)⟩

/-- Agreement between the name cache and the reserved set: every cached
filename is reserved (install in both, or neither). -/
def cacheReservedAgree (st : St) : Prop :=
  ∀ k ∈ dkeys st.image_cache, k ∈ st.reserved_names

theorem agree_dset_sadd {c : CacheT} {r : List String} {t v : String}
    (h : ∀ k ∈ dkeys c, k ∈ r) :
    ∀ k ∈ dkeys (dset c t v), k ∈ sadd r t := by
  intro k hk
  rw [dkeys_dset] at hk
  by_cases hh : dhas c t
  · rw [if_pos hh] at hk
    exact mem_sadd.mpr (Or.inl (h k hk))
  · rw [if_neg (by simpa using hh)] at hk
    rcases List.mem_append.mp hk with hk | hk
    · exact mem_sadd.mpr (Or.inl (h k hk))
    · exact mem_sadd.mpr (Or.inr (by simpa using hk))

theorem agree_ddel_sdel {c : CacheT} {r : List String} {e : String}
    (h : ∀ k ∈ dkeys c, k ∈ r) :
    ∀ k ∈ dkeys (ddel c e), k ∈ sdel r e := by
  intro k hk
  obtain ⟨hk, hne⟩ := mem_dkeys_ddel.mp hk
  exact mem_sdel.mpr ⟨h k hk, hne⟩

theorem fetchStep_agree (ok : String → Bool) (st : St) (url target : String)
    (h : cacheReservedAgree st) : cacheReservedAgree (fetchStep ok st url target) := by
  by_cases ho : ok url
  · simp only [cacheReservedAgree, fetchStep, ho, if_true]
    exact agree_dset_sadd h
  · simpa [cacheReservedAgree, fetchStep, ho] using h

theorem processUrl_agree (ok : String → Bool) (st : St) (title : String)
    (idx total : Nat) (url : String) (h : cacheReservedAgree st) :
    cacheReservedAgree (processUrl ok st title idx total url) := by
  by_cases hu : url = ""
  · simpa [processUrl, hu] using h
  · simp only [processUrl, if_neg hu]
    split
    · exact h
    · split
      · split
        · split
          · -- rename branch
            exact agree_dset_sadd (agree_ddel_sdel h)
          · -- stale drop, then fetch
            exact fetchStep_agree ok _ url _ (agree_ddel_sdel h)
        · exact fetchStep_agree ok _ url _ h
      · exact fetchStep_agree ok _ url _ h

theorem processImages_agree (ok : String → Bool) (title : String) (total : Nat) :
    ∀ (urls : List String) (idx : Nat) (st : St),
      cacheReservedAgree st →
      cacheReservedAgree (processImages ok title total st idx urls) := by
  intro urls
  induction urls with
  | nil => intro idx st h; exact h
  | cons url rest ih =>
    intro idx st h
    exact ih (idx + 1) _ (processUrl_agree ok st title idx total url h)

/-- **C9**: the name cache and the reserved set agree at every step
boundary of the reconciler — they agree at run start (the reserved set is
initialised to the cache's keys), every single `(poster, url)` step
preserves the agreement (skip, rename, stale-drop, successful fetch and
failed fetch alike), and hence the whole run preserves it. -/
theorem cache_reserved_agreement :
    (∀ (image_cache : CacheT) (files : List String),
        cacheReservedAgree (initSt image_cache files)) ∧
    (∀ (ok : String → Bool) (st : St) (title : String) (idx total : Nat)
        (url : String), cacheReservedAgree st →
        cacheReservedAgree (processUrl ok st title idx total url)) ∧
    (∀ (ok : String → Bool) (ps : List Poster) (st : St),
        cacheReservedAgree st → cacheReservedAgree (runPosters ok st ps)) := by
  refine ⟨?_, processUrl_agree, ?_⟩
  · intro image_cache files k hk
    exact hk
  · intro ok ps
    induction ps with
    | nil => intro st h; exact h
    | cons p rest ih =>
      intro st h
      exact ih _ (processImages_agree ok p.title p.images.length p.images 0 st h)

/-- Witness for C9: the agreement holds for a concrete warm state and is
preserved through a concrete reconciliation step that downloads a new
image. -/
theorem cache_reserved_agreement_witness :
    cacheReservedAgree (initSt [("A.jpg", "http://x/A.jpg")] ["A.jpg"]) ∧
    cacheReservedAgree (processUrl (fun _ => true)
      (initSt [("A.jpg", "http://x/A.jpg")] ["A.jpg"]) "B" 0 1 "http://x/B.jpg") :=
  ⟨cache_reserved_agreement.1 [("A.jpg", "http://x/A.jpg")] ["A.jpg"],
   cache_reserved_agreement.2.1 (fun _ => true) _ "B" 0 1 "http://x/B.jpg"
     (cache_reserved_agreement.1 [("A.jpg", "http://x/A.jpg")] ["A.jpg"])⟩

/-! ### C3 — warm-cache stability -/

/-- The skip condition of the reconciler (lines 145-149) for one
`(poster, url)` pair against given cache / reserved / files state: the
resolved filename is cached for exactly this URL and the asset file
exists. -/
def skipCond (image_cache : CacheT) (reserved files : List String)
    (title : String) (idx total : Nat) (url : String) : Prop :=
  dget image_cache
    (choose_filename (filename_from_title title url idx total).1
      (filename_from_title title url idx total).2 url image_cache reserved) =
    some url ∧
  choose_filename (filename_from_title title url idx total).1
    (filename_from_title title url idx total).2 url image_cache reserved ∈ files

/-- A warm image list: every non-empty URL satisfies the skip condition. -/
def warmImages (image_cache : CacheT) (reserved files : List String)
    (title : String) (total : Nat) : Nat → List String → Prop
  | _, [] => True
  | idx, url :: rest =>
    (url ≠ "" → skipCond image_cache reserved files title idx total url) ∧
    warmImages image_cache reserved files title total (idx + 1) rest

/-- A warm manifest: every poster's image list is warm. -/
def warmManifest (image_cache : CacheT) (reserved files : List String) :
    List Poster → Prop
  | [] => True
  | p :: ps =>
    warmImages image_cache reserved files p.title p.images.length 0 p.images ∧
    warmManifest image_cache reserved files ps

theorem processUrl_skip (ok : String → Bool) (st : St) (title : String)
    (idx total : Nat) (url : String) (hu : url ≠ "")
    (hc : skipCond st.image_cache st.reserved_names st.files title idx total url) :
    (processUrl ok st title idx total url).image_cache = st.image_cache ∧
    (processUrl ok st title idx total url).reserved_names = st.reserved_names ∧
    (processUrl ok st title idx total url).files = st.files ∧
    (processUrl ok st title idx total url).downloaded = st.downloaded ∧
    (processUrl ok st title idx total url).renamed = st.renamed ∧
    (processUrl ok st title idx total url).skipped = st.skipped + 1 := by
  simp only [processUrl, if_neg hu]
  split
  · exact ⟨rfl, rfl, rfl, rfl, rfl, rfl⟩
  · next hneg => exact absurd hc hneg

theorem processImages_warm (ok : String → Bool) (title : String) (total : Nat)
    (cache0 : CacheT) (res0 files0 : List String) :
    ∀ (urls : List String) (idx : Nat) (st : St),
      st.image_cache = cache0 → st.reserved_names = res0 → st.files = files0 →
      warmImages cache0 res0 files0 title total idx urls →
      (processImages ok title total st idx urls).image_cache = cache0 ∧
      (processImages ok title total st idx urls).reserved_names = res0 ∧
      (processImages ok title total st idx urls).files = files0 ∧
      (processImages ok title total st idx urls).downloaded = st.downloaded ∧
      (processImages ok title total st idx urls).renamed = st.renamed ∧
      (processImages ok title total st idx urls).skipped =
        st.skipped + (urls.filter (fun u => u ≠ "")).length := by
  intro urls
  induction urls with
  | nil =>
    intro idx st h1 h2 h3 _
    exact ⟨h1, h2, h3, rfl, rfl, by simp [processImages]⟩
  | cons url rest ih =>
    intro idx st h1 h2 h3 hw
    obtain ⟨hwu, hwrest⟩ := hw
    by_cases hu : url = ""
    · have hpu : processUrl ok st title idx total url = st := by
        simp [processUrl, hu]
      simp only [processImages, hpu]
      have hrest := ih (idx + 1) st h1 h2 h3 hwrest
      refine ⟨hrest.1, hrest.2.1, hrest.2.2.1, hrest.2.2.2.1,
        hrest.2.2.2.2.1, ?_⟩
      rw [hrest.2.2.2.2.2]
      simp [hu, List.filter_cons]
    · have hc : skipCond st.image_cache st.reserved_names st.files
          title idx total url := by
        rw [h1, h2, h3]
        exact hwu hu
      obtain ⟨e1, e3, e4, e5, e6, e7⟩ := processUrl_skip ok st title idx total url hu hc
      simp only [processImages]
      have hrest := ih (idx + 1) (processUrl ok st title idx total url)
        (e1.trans h1) (e3.trans h2) (e4.trans h3) hwrest
      refine ⟨hrest.1, hrest.2.1, hrest.2.2.1, ?_, ?_, ?_⟩
      · rw [hrest.2.2.2.1, e5]
      · rw [hrest.2.2.2.2.1, e6]
      · rw [hrest.2.2.2.2.2, e7, List.filter_cons]
        have hp : (decide (url ≠ "") = true) := by simpa using hu
        rw [if_pos hp]
        simp only [List.length_cons]
        omega

theorem runPosters_warm (ok : String → Bool) (cache0 : CacheT)
    (res0 files0 : List String) :
    ∀ (ps : List Poster) (st : St),
      st.image_cache = cache0 → st.reserved_names = res0 → st.files = files0 →
      warmManifest cache0 res0 files0 ps →
      (runPosters ok st ps).image_cache = cache0 ∧
      (runPosters ok st ps).reserved_names = res0 ∧
      (runPosters ok st ps).files = files0 ∧
      (runPosters ok st ps).downloaded = st.downloaded ∧
      (runPosters ok st ps).renamed = st.renamed ∧
      (runPosters ok st ps).skipped = st.skipped + nonEmptyCount ps := by
  intro ps
  induction ps with
  | nil =>
    intro st h1 h2 h3 _
    exact ⟨h1, h2, h3, rfl, rfl, by simp [runPosters, nonEmptyCount]⟩
  | cons p rest ih =>
    intro st h1 h2 h3 hw
    obtain ⟨hwp, hwrest⟩ := hw
    have hpp := processImages_warm ok p.title p.images.length cache0 res0 files0
      p.images 0 st h1 h2 h3 hwp
    rw [show runPosters ok st (p :: rest) =
      runPosters ok (processPoster ok st p) rest from rfl]
    have hrest := ih (processPoster ok st p) hpp.1 hpp.2.1 hpp.2.2.1 hwrest
    refine ⟨hrest.1, hrest.2.1, hrest.2.2.1, ?_, ?_, ?_⟩
    · rw [hrest.2.2.2.1]
      exact hpp.2.2.2.1
    · rw [hrest.2.2.2.2.1]
      exact hpp.2.2.2.2.1
    · rw [hrest.2.2.2.2.2,
        show processPoster ok st p =
          processImages ok p.title p.images.length st 0 p.images from rfl,
        hpp.2.2.2.2.2]
      simp only [nonEmptyCount, List.map_cons, List.sum_cons]
      omega

/-- **C3**: re-running over a manifest with a warm cache — for every
non-empty URL the resolved filename is already cached for that URL and the
asset file exists — performs zero downloads and zero renames: every
non-empty URL takes the skip branch, and neither the cache nor the asset
store changes. -/
theorem warm_rerun_all_skips (posters : List Poster) (ok : String → Bool)
    (image_cache : CacheT) (files : List String)
    (h : warmManifest image_cache (dkeys image_cache) files posters) :
    (runPosters ok (initSt image_cache files) posters).downloaded = 0 ∧
    (runPosters ok (initSt image_cache files) posters).renamed = 0 ∧
    (runPosters ok (initSt image_cache files) posters).skipped =
      nonEmptyCount posters ∧
    (runPosters ok (initSt image_cache files) posters).image_cache = image_cache ∧
    (runPosters ok (initSt image_cache files) posters).files = files := by
  have hr := runPosters_warm ok image_cache (dkeys image_cache) files posters
    (initSt image_cache files) rfl rfl rfl h
  refine ⟨hr.2.2.2.1, hr.2.2.2.2.1, ?_, hr.1, hr.2.2.1⟩
  rw [hr.2.2.2.2.2]
  show 0 + nonEmptyCount posters = nonEmptyCount posters
  omega

/-- Witness for C3: a warm single-poster manifest over a cache holding
`A.jpg` with the file present; the run skips it and changes nothing. -/
theorem warm_rerun_witness :
    warmManifest [("A.jpg", "http://x/A.jpg")]
      (dkeys [("A.jpg", "http://x/A.jpg")]) ["A.jpg"]
      [⟨"A", ["http://x/A.jpg"]⟩] ∧
    ((runPosters (fun _ => false)
        (initSt [("A.jpg", "http://x/A.jpg")] ["A.jpg"])
        [⟨"A", ["http://x/A.jpg"]⟩]).downloaded = 0 ∧
      (runPosters (fun _ => false)
        (initSt [("A.jpg", "http://x/A.jpg")] ["A.jpg"])
        [⟨"A", ["http://x/A.jpg"]⟩]).renamed = 0 ∧
      (runPosters (fun _ => false)
        (initSt [("A.jpg", "http://x/A.jpg")] ["A.jpg"])
        [⟨"A", ["http://x/A.jpg"]⟩]).skipped =
          nonEmptyCount [⟨"A", ["http://x/A.jpg"]⟩] ∧
      (runPosters (fun _ => false)
        (initSt [("A.jpg", "http://x/A.jpg")] ["A.jpg"])
        [⟨"A", ["http://x/A.jpg"]⟩]).image_cache = [("A.jpg", "http://x/A.jpg")] ∧
      (runPosters (fun _ => false)
        (initSt [("A.jpg", "http://x/A.jpg")] ["A.jpg"])
        [⟨"A", ["http://x/A.jpg"]⟩]).files = ["A.jpg"]) :=
  ⟨⟨⟨fun _ => ⟨by decide, by decide⟩, trivial⟩, trivial⟩,
   warm_rerun_all_skips [⟨"A", ["http://x/A.jpg"]⟩] (fun _ => false)
     [("A.jpg", "http://x/A.jpg")] ["A.jpg"]
     ⟨⟨fun _ => ⟨by decide, by decide⟩, trivial⟩, trivial⟩⟩
